import Mathlib

/-!
Shallow embedding of `src/main.py` (foobartoy): a discrete-time economic
simulation in which robots mine foos and bars, assemble foobars, sell them
for money and buy further robots.  Python's in-place mutation is modelled
by explicit state passing; Python `raise ValueError` by `Except String`;
the injected randomness source `random.random()` by a stream
`draws : ℕ → ℚ` consumed in program order (one draw per
`RobotActionMiningBar` construction and one per assembly resolution);
Python `int` by `ℤ` or `ℕ`.  Three counters (`lostFoos`, `boughtFoos`,
`soldFoos`) are ghost instrumentation: they record resolution events for
the conservation analysis and never influence control flow.
-/

namespace FooSim

/-- A foobar records the serial numbers of the foo and the bar consumed
into it (`Foobar.__init__`). -/
abbrev Foobar := ℕ × ℕ

/-- The closed set of robot activities (`RobotAction` and its subclasses),
each carrying its own `remaining_time` counter (a Python int, hence `ℤ`).
`idle` carries no counter of its own: in the source `RobotActionIdle.__init__`
never sets an instance attribute, so reading or mutating its
`remaining_time` falls through to the single class-level `Time(0)` object
declared on `RobotAction`; that shared object is modelled by
`State.idleClock`. -/
inductive Action : Type where
  | idle (prev_action : Option Action)
  | changingTask (remaining : ℤ) (next_task : Action)
  | miningFoo (remaining : ℤ)
  | miningBar (remaining : ℤ)
  | assemblingFoobar (remaining : ℤ) (foo : ℕ) (bar : ℕ)
  | sellingFoobars (remaining : ℤ) (foobars : List Foobar)
  | buyNewRobot (remaining : ℤ) (foos : List ℕ)

/-- The Python classes of the actions, used for the `isinstance` and
`type(action)` checks of the source. -/
inductive ActionKind : Type where
  | idle
  | changingTask
  | miningFoo
  | miningBar
  | assemblingFoobar
  | sellingFoobars
  | buyNewRobot
  deriving DecidableEq, Repr

/-- Class (`type`) of an action value. -/
def Action.kind : Action → ActionKind
  | .idle _ => .idle
  | .changingTask _ _ => .changingTask
  | .miningFoo _ => .miningFoo
  | .miningBar _ => .miningBar
  | .assemblingFoobar _ _ _ => .assemblingFoobar
  | .sellingFoobars _ _ => .sellingFoobars
  | .buyNewRobot _ _ => .buyNewRobot

/-- A `Robot` holds exactly one field, its current action
(`Robot.action`); robot identity is positional (its slot in
`State.robots`), so a robot is identified with its current action. -/
abbrev Robot := Action

/-- The simulated world (`State.__init__`), plus: `idleClock`, the value of
the shared class-level `RobotAction.remaining_time = Time(0)` object that
every `RobotActionIdle` instance reads and mutates; the randomness stream
`draws` with its cursor `drawIdx`; and the ghost event counters. -/
structure State where
  clock : ℤ
  robots : List Robot
  foo_ctr : ℕ
  foos : List ℕ
  bar_ctr : ℕ
  bars : List ℕ
  foobars : List Foobar
  money : ℤ
  idleClock : ℤ
  draws : ℕ → ℚ
  drawIdx : ℕ
  lostFoos : ℕ
  boughtFoos : ℕ
  soldFoos : ℕ

/-- Initial world: two idle robots, empty pools, no money
(`State.__init__`), with an injected randomness stream. -/
def initState (draws : ℕ → ℚ) : State :=
  { clock := 0
    robots := [Action.idle none, Action.idle none]
    foo_ctr := 0
    foos := []
    bar_ctr := 0
    bars := []
    foobars := []
    money := 0
    idleClock := 0
    draws := draws
    drawIdx := 0
    lostFoos := 0
    boughtFoos := 0
    soldFoos := 0 }

/-- RobotActionSellingFoobars.max_foobars -/
def max_foobars : ℕ := 5

/-- RobotActionBuyNewRobot.foos_required -/
def foos_required : ℕ := 6

/-- RobotActionBuyNewRobot.cost (€3) -/
def cost : ℤ := 3

/-- RobotActionAssemblingFoobar.success_chance (0.6), written as the
reduced fraction 3/5 in constructor form so that it evaluates inside the
kernel (the library's rational arithmetic is irreducible). -/
def success_chance : ℚ := ⟨3, 5, by decide, by decide⟩

/-- RobotActionSellingFoobars.profit: €1 per foobar sold. -/
def profit (foobars : List Foobar) : ℤ := foobars.length

/-- RobotActionMiningFoo.__init__: fixed 10 ticks. -/
def mkMiningFoo : Action := .miningFoo 10

/-- RobotActionMiningBar.__init__: `round(random.random() * 15)` plus 5
ticks, the draw being taken at construction time.  The rounding
`round(q * 15) = floor(q * 15 + 1/2)` is computed on the integer
numerator/denominator representation of the draw (exact for every
non-negative draw; an exact half rounds up where Python rounds to even,
a boundary no draw of this development hits). -/
def mkMiningBar (q : ℚ) : Action :=
  .miningBar ((30 * q.num + q.den) / (2 * q.den) + 5)

/-- RobotActionAssemblingFoobar.__init__: fixed 20 ticks, holding the two
committed raw units. -/
def mkAssemblingFoobar (foo bar : ℕ) : Action := .assemblingFoobar 20 foo bar

/-- RobotActionChangingTask.__init__: fixed 50 ticks, wrapping the pending
successor action. -/
def mkChangingTask (next_task : Action) : Action := .changingTask 50 next_task

/-- RobotActionSellingFoobars.__init__: fixed 100 ticks; raises when given
more than `max_foobars` foobars. -/
def mkSellingFoobars (foobars : List Foobar) : Except String Action :=
  if foobars.length > max_foobars then
    .error "Cannot sell more than 5 foobars."
  else
    .ok (.sellingFoobars 100 foobars)

/-- RobotActionBuyNewRobot.__init__: fixed 100 ticks; raises unless given
exactly `foos_required` foos. -/
def mkBuyNewRobot (foos : List ℕ) : Except String Action :=
  if foos.length ≠ foos_required then
    .error "Need 6 foos to buy a robot."
  else
    .ok (.buyNewRobot 100 foos)

/-- Value of `action.remaining_time`: every non-idle action owns an
instance attribute, while an idle action reads the shared class attribute
(`idleClock`). -/
def remaining_time (idleClock : ℤ) : Action → ℤ
  | .idle _ => idleClock
  | .changingTask r _ => r
  | .miningFoo r => r
  | .miningBar r => r
  | .assemblingFoobar r _ _ => r
  | .sellingFoobars r _ => r
  | .buyNewRobot r _ => r

/-- One call of `robot.action.remaining_time.decrement()`: for an idle
action this mutates the shared class-level counter (`idleClock`), for any
other action its own instance counter. -/
def decrement_remaining (s : State) (a : Action) : State × Action :=
  match a with
  | .idle p => ({ s with idleClock := s.idleClock - 1 }, .idle p)
  | .changingTask r n => (s, .changingTask (r - 1) n)
  | .miningFoo r => (s, .miningFoo (r - 1))
  | .miningBar r => (s, .miningBar (r - 1))
  | .assemblingFoobar r f b => (s, .assemblingFoobar (r - 1) f b)
  | .sellingFoobars r fbs => (s, .sellingFoobars (r - 1) fbs)
  | .buyNewRobot r fs => (s, .buyNewRobot (r - 1) fs)

/-- robot_did_this_action_recently: true when the robot is currently idle
and the action recorded in its `prev_action` is an instance of the given
class. -/
def robot_did_this_action_recently (robot : Robot) (k : ActionKind) : Bool :=
  match robot with
  | .idle (some prev) => decide (prev.kind = k)
  | _ => false

/-- should_this_robot_do_that_action: grant when the robot itself did the
action recently, otherwise deny when any other robot did it recently.
The Python scans `state.robots` skipping the robot itself by object
identity; here the caller passes the list of the other robots. -/
def should_this_robot_do_that_action (others : List Robot) (robot : Robot)
    (k : ActionKind) : Bool :=
  if robot_did_this_action_recently robot k then
    true
  else if others.any (fun o => robot_did_this_action_recently o k) then
    false
  else
    true

/-- Robot.set_action: raises when the current action still has time
remaining; otherwise installs the new action, wrapped in a
`RobotActionChangingTask` unless the robot did this same kind of action
recently. -/
def set_action (idleClock : ℤ) (robot : Robot) (action : Action) :
    Except String Robot :=
  if remaining_time idleClock robot > 0 then
    .error "This robot is busy and cannot do this action."
  else if robot_did_this_action_recently robot action.kind then
    .ok action
  else
    .ok (mkChangingTask action)

/-- mine_foo: mint one foo with the next serial number into the pool. -/
def mine_foo (s : State) : State :=
  { s with foo_ctr := s.foo_ctr + 1, foos := s.foos ++ [s.foo_ctr + 1] }

/-- mine_bar: mint one bar with the next serial number into the pool. -/
def mine_bar (s : State) : State :=
  { s with bar_ctr := s.bar_ctr + 1, bars := s.bars ++ [s.bar_ctr + 1] }

/-- assemble_foobar: draw a success sample; on success the assembled pair
enters the foobar pool, on failure the bar is recovered and the foo lost
(the ghost `lostFoos` records the loss).  `Rat.blt` is the strict
less-than test on rationals (`a < b` on core rationals is defined as
`Rat.blt a b = true`), written in this form so that it evaluates inside
the kernel. -/
def assemble_foobar (s : State) (foo bar : ℕ) : State :=
  let q := s.draws s.drawIdx
  let s := { s with drawIdx := s.drawIdx + 1 }
  if Rat.blt q success_chance then
    { s with foobars := s.foobars ++ [(foo, bar)] }
  else
    { s with bars := s.bars ++ [bar], lostFoos := s.lostFoos + 1 }

/-- sell_foobars: credit the profit; the ghost `soldFoos` records the foos
inside the foobars just sold. -/
def sell_foobars (s : State) (foobars : List Foobar) : State :=
  { s with
      money := s.money + profit foobars
      soldFoos := s.soldFoos + foobars.length }

/-- buy_new_robot: the source appends one fresh idle robot to
`state.robots`; inside the progress loop that appended robot is returned
by `progressOne` and joins the end of the list being iterated.  The ghost
`boughtFoos` records the foos consumed by the purchase. -/
def buy_new_robot (s : State) (foos : List ℕ) : State :=
  { s with boughtFoos := s.boughtFoos + foos.length }

/-- Completion resolution: the `elif` chain of
`update_robot_actions_progress` applied once an action's remaining time is
no longer positive.  An idle action (or a nested `changingTask`, which the
chain does not match) is left in place.  Returns the updated world, the
robot's new action, and the robots the source appended to `state.robots`
(one fresh idle robot per resolved purchase). -/
def resolveCompleted (s : State) (a : Action) : State × Robot × List Robot :=
  match a with
  | .miningFoo r => (mine_foo s, .idle (some (.miningFoo r)), [])
  | .miningBar r => (mine_bar s, .idle (some (.miningBar r)), [])
  | .assemblingFoobar r f b =>
      (assemble_foobar s f b, .idle (some (.assemblingFoobar r f b)), [])
  | .sellingFoobars r fbs =>
      (sell_foobars s fbs, .idle (some (.sellingFoobars r fbs)), [])
  | .buyNewRobot r fs =>
      (buy_new_robot s fs, .idle (some (.buyNewRobot r fs)), [.idle none])
  | other => (s, other, [])

/-- One robot's slice of `update_robot_actions_progress`: decrement the
remaining time, test for completion, unwrap one `changingTask` layer
re-testing the wrapped action's own remaining time (a zero-duration
successor resolves in the same tick), then resolve. -/
def progressOne (s : State) (r : Robot) : State × Robot × List Robot :=
  match decrement_remaining s r with
  | (s, a) =>
    if remaining_time s.idleClock a > 0 then (s, a, [])
    else
      match a with
      | .changingTask _ next =>
          if remaining_time s.idleClock next > 0 then (s, next, [])
          else resolveCompleted s next
      | other => resolveCompleted s other

/-- Actions whose completion this tick can append a robot: a purchase,
possibly still wrapped in its `changingTask`. -/
def canSpawn : Action → Bool
  | .buyNewRobot _ _ => true
  | .changingTask _ (.buyNewRobot _ _) => true
  | _ => false

/-- Measure bounding the number of iterations of the progress loop: each
iteration removes one robot from the queue, and a resolved purchase
replaces itself by a fresh idle robot that can spawn nothing further. -/
def progressMeasure (todo : List Robot) : ℕ :=
  2 * todo.length + (todo.filter canSpawn).length

/-- The `for robot in state.robots` loop of `update_robot_actions_progress`:
`done` is the already-processed prefix of the robot list; robots appended
mid-pass by a resolved purchase join the end of the queue, exactly where
Python's `list.append` places them in the list being iterated.  The `fuel`
argument only forces structural recursion; the caller passes more fuel
than `progressMeasure todo`, which strictly falls at every step
(`progressGo_fuel_congr` shows the fuel-exhaustion branch is dead code). -/
def progressGo : ℕ → State → List Robot → List Robot → State × List Robot
  | 0, s, done, todo => (s, done ++ todo)
  | _ + 1, s, done, [] => (s, done)
  | fuel + 1, s, done, r :: rest =>
    match progressOne s r with
    | (s', r', spawned) => progressGo fuel s' (done ++ [r']) (rest ++ spawned)

/-- update_robot_actions_progress: one Progress Engine pass over all
robots, including any appended mid-pass by a resolved purchase. -/
def update_robot_actions_progress (s : State) : State :=
  match progressGo (progressMeasure s.robots + 1) { s with robots := [] }
      [] s.robots with
  | (s', robots') => { s' with robots := robots' }

/-- FutureState: the on-demand projection of pool sizes and money assuming
every in-flight action (unwrapping one `changingTask` layer) completes as
expected.  The three counts are stored multiplied by 5, which makes the
fractional expected contributions of an assembly (0.6 of a foobar, 0.4 of
a bar) the exact integers 3 and 2; the source's floating-point counts are
all multiples of one fifth, so this scaled integer representation is
exact. -/
structure FutureState where
  num_foos : ℤ
  num_bars : ℤ
  num_foobars : ℤ
  money : ℤ

/-- FutureState.__init__.  The Python constructor copies the pool sizes by
value (`len(...)`) but binds `self.money` to the very `Money` object of
the world state, so the `self.money.add(action.profit)` calls for robots
in a selling action mutate the world's balance; the computation therefore
returns the (possibly mutated) world state alongside the forecast. -/
def mkFutureState (s : State) (robots : List Robot) : FutureState × State :=
  let fut := robots.foldl
    (fun fut r =>
      let a := match r with
        | .changingTask _ next => next
        | other => other
      match a with
      | .miningFoo _ => { fut with num_foos := fut.num_foos + 5 }
      | .miningBar _ => { fut with num_bars := fut.num_bars + 5 }
      | .assemblingFoobar _ _ _ =>
          { fut with
              num_foobars := fut.num_foobars + 3
              num_bars := fut.num_bars + 2 }
      | .sellingFoobars _ fbs => { fut with money := fut.money + profit fbs }
      | _ => fut)
    ⟨5 * s.foos.length, 5 * s.bars.length, 5 * s.foobars.length, s.money⟩
  (fut, { s with money := fut.money })

/-- can_afford_new_robot: strictly more money than the cost and strictly
more pooled foos than the purchase consumes. -/
def can_afford_new_robot (s : State) : Bool :=
  decide (s.money > cost) && decide (s.foos.length > foos_required)

/-- go_buy_new_robot: debit the cost at dispatch time, split the first
`foos_required` foos off the pool (`state.foos[:fr]`), construct the
purchase and hand it to the robot. -/
def go_buy_new_robot (s : State) (robot : Robot) :
    Except String (State × Robot) :=
  let s1 := { s with money := s.money - cost }
  let taken := s1.foos.take foos_required
  let s2 := { s1 with foos := s1.foos.drop foos_required }
  match mkBuyNewRobot taken with
  | .error e => .error e
  | .ok action =>
    match set_action s2.idleClock robot action with
    | .error e => .error e
    | .ok robot' => .ok (s2, robot')

/-- go_sell_foobars: split the first `max_foobars` foobars off the pool
(`state.foobars[:mf]`), construct the sale and hand it to the robot. -/
def go_sell_foobars (s : State) (robot : Robot) :
    Except String (State × Robot) :=
  let taken := s.foobars.take max_foobars
  let s1 := { s with foobars := s.foobars.drop max_foobars }
  match mkSellingFoobars taken with
  | .error e => .error e
  | .ok action =>
    match set_action s1.idleClock robot action with
    | .error e => .error e
    | .ok robot' => .ok (s1, robot')

/-- go_assemble_foobars: `list.pop()` removes the most recently appended
foo and bar; popping an empty list is a Python `IndexError`, modelled as
an error. -/
def go_assemble_foobars (s : State) (robot : Robot) :
    Except String (State × Robot) :=
  match s.foos.getLast?, s.bars.getLast? with
  | some foo, some bar =>
    let s1 := { s with foos := s.foos.dropLast, bars := s.bars.dropLast }
    match set_action s1.idleClock robot (mkAssemblingFoobar foo bar) with
    | .error e => .error e
    | .ok robot' => .ok (s1, robot')
  | _, _ => .error "pop from empty list"

/-- go_mine_foos: start mining a foo. -/
def go_mine_foos (s : State) (robot : Robot) :
    Except String (State × Robot) :=
  match set_action s.idleClock robot mkMiningFoo with
  | .error e => .error e
  | .ok robot' => .ok (s, robot')

/-- go_mine_bars: start mining a bar; the duration draws from the
randomness stream at construction time. -/
def go_mine_bars (s : State) (robot : Robot) :
    Except String (State × Robot) :=
  let q := s.draws s.drawIdx
  let s1 := { s with drawIdx := s.drawIdx + 1 }
  match set_action s1.idleClock robot (mkMiningBar q) with
  | .error e => .error e
  | .ok robot' => .ok (s1, robot')

/-- One idle robot's slice of `dispatch_robot_actions`: the four priority
tiers in order (buy, sell, assemble, mine), with the projection computed
after the first two tiers declined.  `done` and `todo` are the robots
before and after this one in the collection; the coordination scans see
them all except the robot itself, the projection sees the whole
collection. -/
def dispatchOne (s : State) (done : List Robot) (robot : Robot)
    (todo : List Robot) : Except String (State × Robot) :=
  let others := done ++ todo
  if can_afford_new_robot s &&
      should_this_robot_do_that_action others robot .buyNewRobot then
    go_buy_new_robot s robot
  else if decide (s.foobars.length ≥ max_foobars) &&
      should_this_robot_do_that_action others robot .sellingFoobars then
    go_sell_foobars s robot
  else
    match mkFutureState s (done ++ robot :: todo) with
    | (future_state, s) =>
      if (decide (s.foos.length > foos_required) &&
            decide (s.bars.length > 0)) &&
          should_this_robot_do_that_action others robot .assemblingFoobar then
        go_assemble_foobars s robot
      else if future_state.num_foos - future_state.num_bars <
          5 * (foos_required : ℤ) then
        go_mine_foos s robot
      else
        go_mine_bars s robot

/-- The `for robot in state.robots` loop of `dispatch_robot_actions`:
robots that are not idle are skipped. -/
def dispatchGo (s : State) (done : List Robot) :
    List Robot → Except String (State × List Robot)
  | [] => .ok (s, done)
  | r :: todo =>
    match r with
    | .idle p =>
      match dispatchOne s done (.idle p) todo with
      | .error e => .error e
      | .ok (s', r') => dispatchGo s' (done ++ [r']) todo
    | a => dispatchGo s (done ++ [a]) todo

/-- dispatch_robot_actions: assign a next activity to every idle robot. -/
def dispatch_robot_actions (s : State) : Except String State :=
  match dispatchGo { s with robots := [] } [] s.robots with
  | .error e => .error e
  | .ok (s', robots') => .ok { s' with robots := robots' }

/-- One iteration of the `while True` loop of `main`: Progress Engine,
then Dispatch Policy, then the termination check (fleet size 30); when
the loop continues, the clock is incremented. -/
def tick (s : State) : Except String State :=
  match dispatch_robot_actions (update_robot_actions_progress s) with
  | .error e => .error e
  | .ok s' =>
    if s'.robots.length ≥ 30 then .ok s'
    else .ok { s' with clock := s'.clock + 1 }

/-- Run `n` loop iterations from `s`, halting at the termination
condition exactly as `main` does. -/
def iterTick : ℕ → State → Except String State
  | 0, s => .ok s
  | n + 1, s =>
    if s.robots.length ≥ 30 then .ok s
    else
      match tick s with
      | .error e => .error e
      | .ok s' => iterTick n s'

/-- States the simulation loop can produce: the initial state under some
injected randomness stream, and every state one further non-halted loop
iteration reaches. -/
inductive Reachable : State → Prop where
  | init (draws : ℕ → ℚ) : Reachable (initState draws)
  | step {s s' : State} : Reachable s → s.robots.length < 30 →
      tick s = .ok s' → Reachable s'

/-- Constantly-zero randomness stream: every assembly succeeds (0 < 0.6)
and every mining-bar duration is the minimal 5 ticks. -/
def zeroDraws : ℕ → ℚ := fun _ => 0

/-- Foos committed inside an in-flight action: the one foo of an assembly,
the six foos of a pending purchase, one foo inside each foobar carried by
a pending sale, looking through a `changingTask` wrapper.  A completed
action recorded in an idle robot's `prev_action` no longer commits
anything (its foos were accounted to the pools or the ghost counters at
resolution). -/
def committedFoos : Action → ℕ
  | .assemblingFoobar _ _ _ => 1
  | .buyNewRobot _ fs => fs.length
  | .sellingFoobars _ fbs => fbs.length
  | .changingTask _ next => committedFoos next
  | _ => 0

/-- Robot-independent part of the foo ledger: foos in the pool, inside
pooled foobars, permanently lost to failed assembly, consumed by
completed purchases, and inside foobars already sold. -/
def fooBase (s : State) : ℕ :=
  s.foos.length + s.foobars.length + s.lostFoos + s.boughtFoos + s.soldFoos

/-- Complete foo ledger of a state: every minted foo is in the pool,
committed inside some in-flight action, inside a pooled foobar, lost to a
failed assembly, consumed by a completed purchase, or inside a foobar
already sold. -/
def fooLedger (s : State) : ℕ :=
  fooBase s + (s.robots.map committedFoos).sum

/-- The foo ledger exactly as the claim words it: pool, in-flight
commitments, foobars not yet sold, losses to failed assembly and
completed purchases — without the foos inside foobars already sold. -/
def specFooLedger (s : State) : ℕ :=
  s.foos.length + (s.robots.map committedFoos).sum + s.foobars.length +
    s.lostFoos + s.boughtFoos

/-- Record of an agent's last completed action as a source state can show
it: only an idle robot carries a `prev_action`; a busy robot stores no
history at all. -/
def lastCompletedVisible : Robot → Option ActionKind
  | .idle (some prev) => some prev.kind
  | _ => none

/-- Modelled from the claim's words: grant a contested action iff the
agent's own last completed action was of that kind, or no other agent —
whether currently idle or currently busy — has that kind as its last
completed action.  Because a busy robot stores no history, the claim's
reading needs an abstract assignment of last-completed kinds, one entry
per other agent. -/
def claimCoordination (selfLast : Option ActionKind)
    (othersLast : List (Option ActionKind)) (k : ActionKind) : Bool :=
  selfLast == some k || !(othersLast.any (fun o => o == some k))

/-- Scenario state of the buy-robot timing claim: currency 4, seven pooled
foos, one idle agent with no history. -/
def c1State : State :=
  { clock := 0
    robots := [Action.idle none]
    foo_ctr := 7
    foos := [1, 2, 3, 4, 5, 6, 7]
    bar_ctr := 0
    bars := []
    foobars := []
    money := 4
    idleClock := 0
    draws := zeroDraws
    drawIdx := 0
    lostFoos := 0
    boughtFoos := 0
    soldFoos := 0 }

/-- Scenario state for the projection claim: one idle agent and one agent
half-way through selling one foobar, no money yet. -/
def c3State : State :=
  { clock := 0
    robots := [Action.idle none, Action.sellingFoobars 50 [(1, 1)]]
    foo_ctr := 1
    foos := []
    bar_ctr := 1
    bars := []
    foobars := []
    money := 0
    idleClock := 0
    draws := zeroDraws
    drawIdx := 0
    lostFoos := 0
    boughtFoos := 0
    soldFoos := 0 }

/-- State of the zero-draw run after 100 loop iterations (checkpoint used
to stage the long concrete run). -/
def st100 : State :=
  { clock := 100
    robots := [Action.changingTask 31 (Action.miningBar 5),
      Action.changingTask 41 (Action.miningBar 5)]
    foo_ctr := 7
    foos := [1, 2, 3, 4, 5, 6, 7]
    bar_ctr := 0
    bars := []
    foobars := []
    money := 0
    idleClock := -2
    draws := zeroDraws
    drawIdx := 2
    lostFoos := 0
    boughtFoos := 0
    soldFoos := 0 }

/-- State of the zero-draw run after 200 loop iterations. -/
def st200 : State :=
  { clock := 200
    robots := [Action.assemblingFoobar 6 7 1,
      Action.miningFoo 6]
    foo_ctr := 7
    foos := [1, 2, 3, 4, 5, 6]
    bar_ctr := 2
    bars := [2]
    foobars := []
    money := 0
    idleClock := -2
    draws := zeroDraws
    drawIdx := 2
    lostFoos := 0
    boughtFoos := 0
    soldFoos := 0 }

/-- State of the zero-draw run after 300 loop iterations. -/
def st300 : State :=
  { clock := 300
    robots := [Action.changingTask 31 (Action.miningFoo 10),
      Action.changingTask 21 (Action.assemblingFoobar 20 9 3)]
    foo_ctr := 9
    foos := [1, 2, 3, 4, 5, 6]
    bar_ctr := 4
    bars := [4]
    foobars := [(7, 1), (8, 2)]
    money := 0
    idleClock := -2
    draws := zeroDraws
    drawIdx := 6
    lostFoos := 0
    boughtFoos := 0
    soldFoos := 0 }

/-- State of the zero-draw run after 400 loop iterations. -/
def st400 : State :=
  { clock := 400
    robots := [Action.miningBar 1,
      Action.changingTask 11 (Action.miningFoo 10)]
    foo_ctr := 10
    foos := [1, 2, 3, 4, 5, 6]
    bar_ctr := 5
    bars := [5]
    foobars := [(7, 1), (8, 2), (9, 3), (10, 4)]
    money := 0
    idleClock := -2
    draws := zeroDraws
    drawIdx := 10
    lostFoos := 0
    boughtFoos := 0
    soldFoos := 0 }

/-- State of the zero-draw run after 500 loop iterations. -/
def st500 : State :=
  { clock := 500
    robots := [Action.changingTask 11 (Action.assemblingFoobar 20 12 5),
      Action.changingTask 41 (Action.sellingFoobars 100 [(7, 1), (8, 2), (9, 3), (10, 4), (11, 6)])]
    foo_ctr := 12
    foos := [1, 2, 3, 4, 5, 6]
    bar_ctr := 6
    bars := []
    foobars := []
    money := 0
    idleClock := -2
    draws := zeroDraws
    drawIdx := 11
    lostFoos := 0
    boughtFoos := 0
    soldFoos := 0 }

/-- State of the zero-draw run after 600 loop iterations. -/
def st600 : State :=
  { clock := 600
    robots := [Action.changingTask 36 (Action.miningFoo 10),
      Action.sellingFoobars 41 [(7, 1), (8, 2), (9, 3), (10, 4), (11, 6)]]
    foo_ctr := 12
    foos := [1, 2, 3, 4, 5, 6]
    bar_ctr := 7
    bars := [7]
    foobars := [(12, 5)]
    money := 10
    idleClock := -2
    draws := zeroDraws
    drawIdx := 13
    lostFoos := 0
    boughtFoos := 0
    soldFoos := 0 }

/-- State of the zero-draw run after 641 loop iterations — the first
iteration in which a sale has completed (`soldFoos = 5`). -/
def st641 : State :=
  { clock := 641
    robots := [Action.miningFoo 5,
      Action.changingTask 50 (Action.miningBar 5)]
    foo_ctr := 12
    foos := [1, 2, 3, 4, 5, 6]
    bar_ctr := 7
    bars := [7]
    foobars := [(12, 5)]
    money := 15
    idleClock := -2
    draws := zeroDraws
    drawIdx := 14
    lostFoos := 0
    boughtFoos := 0
    soldFoos := 5 }

/-- Robots appended by `progressOne` come only from a resolved purchase,
and the appended robot is a fresh idle one. -/
theorem progressOne_spawn_eq (s : State) (r : Robot) :
    (progressOne s r).2.2 = [] ∨
      (canSpawn r = true ∧ (progressOne s r).2.2 = [Action.idle none]) := by
  rcases r with p | ⟨rem, next⟩ | rem | rem | ⟨rem, f, b⟩ | ⟨rem, fbs⟩ | ⟨rem, fs⟩
  · left
    simp only [progressOne, decrement_remaining]
    split <;> simp [resolveCompleted]
  · simp only [progressOne, decrement_remaining]
    split
    · left; rfl
    · split
      · left; rfl
      · rcases next with p | ⟨rem2, next2⟩ | rem2 | rem2 | ⟨rem2, f, b⟩ |
          ⟨rem2, fbs⟩ | ⟨rem2, fs⟩ <;> simp [resolveCompleted, canSpawn]
  · left
    simp only [progressOne, decrement_remaining]
    split <;> simp [resolveCompleted]
  · left
    simp only [progressOne, decrement_remaining]
    split <;> simp [resolveCompleted]
  · left
    simp only [progressOne, decrement_remaining]
    split <;> simp [resolveCompleted]
  · left
    simp only [progressOne, decrement_remaining]
    split <;> simp [resolveCompleted]
  · simp only [progressOne, decrement_remaining]
    split
    · left; rfl
    · right; simp [resolveCompleted, canSpawn]

/-- The progress-loop measure strictly falls at every iteration. -/
theorem progressMeasure_step (s : State) (r : Robot) (rest : List Robot) :
    progressMeasure (rest ++ (progressOne s r).2.2) <
      progressMeasure (r :: rest) := by
  rcases progressOne_spawn_eq s r with hsp | ⟨hc, hsp⟩ <;> rw [hsp]
  · simp only [progressMeasure, List.append_nil, List.filter_cons,
      List.length_cons]
    split <;> simp <;> omega
  · simp only [progressMeasure, List.filter_append, List.filter_cons, hc,
      List.length_append, List.length_cons, if_true]
    simp [canSpawn]

/-- Any two fuel values above the measure compute the same result, so the
fuel-exhaustion branch of `progressGo` is never taken by its caller. -/
theorem progressGo_fuel_congr :
    ∀ (f₁ f₂ : ℕ) (s : State) (done todo : List Robot),
      progressMeasure todo < f₁ → progressMeasure todo < f₂ →
      progressGo f₁ s done todo = progressGo f₂ s done todo := by
  intro f₁
  induction f₁ with
  | zero => intro f₂ s done todo h1 h2; omega
  | succ f₁ ih =>
    intro f₂ s done todo h1 h2
    match f₂, todo with
    | 0, _ => omega
    | f₂ + 1, [] => rfl
    | f₂ + 1, r :: rest =>
      simp only [progressGo]
      have hm := progressMeasure_step s r rest
      rcases hp : progressOne s r with ⟨s', r', spawned⟩
      rw [hp] at hm
      have hm2 : progressMeasure (rest ++ spawned) <
          progressMeasure (r :: rest) := hm
      exact ih f₂ s' (done ++ [r']) (rest ++ spawned) (by omega) (by omega)

/-- Reachability transports along iterated loop iterations. -/
theorem reachable_iterTick :
    ∀ (n : ℕ) {s s' : State}, Reachable s → iterTick n s = .ok s' →
      Reachable s' := by
  intro n
  induction n with
  | zero =>
    intro s s' hs h
    simp only [iterTick, Except.ok.injEq] at h
    exact h ▸ hs
  | succ n ih =>
    intro s s' hs h
    by_cases h30 : s.robots.length ≥ 30
    · simp only [iterTick, if_pos h30, Except.ok.injEq] at h
      exact h ▸ hs
    · simp only [iterTick, if_neg h30] at h
      cases ht : tick s with
      | error e => rw [ht] at h; cases h
      | ok s2 =>
        rw [ht] at h
        exact ih (Reachable.step hs (lt_of_not_ge h30) ht) h

/-- A halted simulation (fleet of 30 reached) stays put. -/
theorem iterTick_halted (n : ℕ) (s : State) (h : s.robots.length ≥ 30) :
    iterTick n s = .ok s := by
  cases n with
  | zero => rfl
  | succ n => simp only [iterTick, if_pos h]

/-- Splitting a run: `m + n` loop iterations are `m` and then `n`. -/
theorem iterTick_add_ok (m n : ℕ) (s smid : State)
    (h : iterTick m s = .ok smid) :
    iterTick (m + n) s = iterTick n smid := by
  induction m generalizing s with
  | zero =>
    simp only [iterTick, Except.ok.injEq] at h
    rw [Nat.zero_add, h]
  | succ m ih =>
    rw [Nat.succ_add]
    by_cases h30 : s.robots.length ≥ 30
    · simp only [iterTick, if_pos h30, Except.ok.injEq] at h ⊢
      rw [← h, iterTick_halted n s h30]
    · simp only [iterTick, if_neg h30] at h ⊢
      cases ht : tick s with
      | error e => rw [ht] at h; exact Except.noConfusion h
      | ok s2 => rw [ht] at h; exact ih s2 h

set_option maxRecDepth 1000000 in
/-- Zero-draw run, iterations 1 to 100. -/
theorem zrun100 : iterTick 100 (initState zeroDraws) = .ok st100 := by rfl

set_option maxRecDepth 1000000 in
/-- Zero-draw run, iterations 101 to 200. -/
theorem zrun200 : iterTick 100 st100 = .ok st200 := by rfl

set_option maxRecDepth 1000000 in
/-- Zero-draw run, iterations 201 to 300. -/
theorem zrun300 : iterTick 100 st200 = .ok st300 := by rfl

set_option maxRecDepth 1000000 in
/-- Zero-draw run, iterations 301 to 400. -/
theorem zrun400 : iterTick 100 st300 = .ok st400 := by rfl

set_option maxRecDepth 1000000 in
/-- Zero-draw run, iterations 401 to 500. -/
theorem zrun500 : iterTick 100 st400 = .ok st500 := by rfl

set_option maxRecDepth 1000000 in
/-- Zero-draw run, iterations 501 to 600. -/
theorem zrun600 : iterTick 100 st500 = .ok st600 := by rfl

set_option maxRecDepth 1000000 in
/-- Zero-draw run, iterations 601 to 641. -/
theorem zrun641 : iterTick 41 st600 = .ok st641 := by rfl

/-- The whole zero-draw run: 641 loop iterations from the initial state
reach `st641`. -/
theorem zrunFull : iterTick 641 (initState zeroDraws) = .ok st641 :=
  calc iterTick 641 (initState zeroDraws)
      = iterTick 541 st100 := iterTick_add_ok 100 541 _ _ zrun100
    _ = iterTick 441 st200 := iterTick_add_ok 100 441 _ _ zrun200
    _ = iterTick 341 st300 := iterTick_add_ok 100 341 _ _ zrun300
    _ = iterTick 241 st400 := iterTick_add_ok 100 241 _ _ zrun400
    _ = iterTick 141 st500 := iterTick_add_ok 100 141 _ _ zrun500
    _ = iterTick 41 st600 := iterTick_add_ok 100 41 _ _ zrun600
    _ = .ok st641 := zrun641

/-- The post-sale state `st641` is reachable. -/
theorem st641_reachable : Reachable st641 :=
  reachable_iterTick 641 (Reachable.init zeroDraws) zrunFull

/-- Decrementing a remaining time touches neither the committed foos nor
the robot-independent ledger nor the mint counter. -/
theorem decrement_remaining_ledger (s : State) (a : Action) :
    committedFoos (decrement_remaining s a).2 = committedFoos a ∧
    fooBase (decrement_remaining s a).1 = fooBase s ∧
    (decrement_remaining s a).1.foo_ctr = s.foo_ctr := by
  cases a <;> simp [decrement_remaining, committedFoos, fooBase]

/-- Completion resolution preserves the foo ledger: whatever leaves an
action's commitment re-appears in a pool or in a ghost counter, and a
freshly minted foo raises both the pool and the mint counter. -/
theorem resolveCompleted_ledger (s : State) (a : Action) :
    fooBase (resolveCompleted s a).1 +
      committedFoos (resolveCompleted s a).2.1 +
      (((resolveCompleted s a).2.2).map committedFoos).sum + s.foo_ctr =
    fooBase s + committedFoos a + (resolveCompleted s a).1.foo_ctr := by
  cases a with
  | idle p => simp [resolveCompleted]
  | changingTask rem next => simp [resolveCompleted]
  | miningFoo rem =>
    simp [resolveCompleted, mine_foo, fooBase, committedFoos]
    omega
  | miningBar rem =>
    simp [resolveCompleted, mine_bar, fooBase, committedFoos]
  | assemblingFoobar rem f b =>
    simp only [resolveCompleted, assemble_foobar]
    split <;> simp [fooBase, committedFoos] <;> omega
  | sellingFoobars rem fbs =>
    simp [resolveCompleted, sell_foobars, fooBase, committedFoos]
    omega
  | buyNewRobot rem fs =>
    simp [resolveCompleted, buy_new_robot, fooBase, committedFoos]
    omega

/-- One robot's progress step preserves the foo ledger. -/
theorem progressOne_ledger (s : State) (r : Robot) :
    fooBase (progressOne s r).1 + committedFoos (progressOne s r).2.1 +
      (((progressOne s r).2.2).map committedFoos).sum + s.foo_ctr =
    fooBase s + committedFoos r + (progressOne s r).1.foo_ctr := by
  cases r with
  | idle p =>
    simp only [progressOne, decrement_remaining]
    split
    · simp [fooBase]
    · simp [resolveCompleted, fooBase]
  | changingTask rem next =>
    simp only [progressOne, decrement_remaining]
    split
    · simp [committedFoos]
    · split
      · simp [committedFoos]
      · have h := resolveCompleted_ledger s next
        simpa [committedFoos] using h
  | miningFoo rem =>
    simp only [progressOne, decrement_remaining]
    split
    · simp [committedFoos]
    · simpa [committedFoos] using resolveCompleted_ledger s (.miningFoo (rem - 1))
  | miningBar rem =>
    simp only [progressOne, decrement_remaining]
    split
    · simp [committedFoos]
    · simpa [committedFoos] using resolveCompleted_ledger s (.miningBar (rem - 1))
  | assemblingFoobar rem f b =>
    simp only [progressOne, decrement_remaining]
    split
    · simp [committedFoos]
    · simpa [committedFoos] using
        resolveCompleted_ledger s (.assemblingFoobar (rem - 1) f b)
  | sellingFoobars rem fbs =>
    simp only [progressOne, decrement_remaining]
    split
    · simp [committedFoos]
    · simpa [committedFoos] using
        resolveCompleted_ledger s (.sellingFoobars (rem - 1) fbs)
  | buyNewRobot rem fs =>
    simp only [progressOne, decrement_remaining]
    split
    · simp [committedFoos]
    · simpa [committedFoos] using
        resolveCompleted_ledger s (.buyNewRobot (rem - 1) fs)

/-- The progress loop preserves the foo ledger, for any fuel. -/
theorem progressGo_ledger :
    ∀ (fuel : ℕ) (s : State) (done todo : List Robot),
      fooBase (progressGo fuel s done todo).1 +
        (((progressGo fuel s done todo).2).map committedFoos).sum +
        s.foo_ctr =
      fooBase s + ((done ++ todo).map committedFoos).sum +
        (progressGo fuel s done todo).1.foo_ctr := by
  intro fuel
  induction fuel with
  | zero => intro s done todo; simp [progressGo]
  | succ fuel ih =>
    intro s done todo
    cases todo with
    | nil => simp [progressGo]
    | cons r rest =>
      rcases hp : progressOne s r with ⟨s1, r1, sp⟩
      simp only [progressGo, hp]
      have hl : fooBase s1 + committedFoos r1 + (sp.map committedFoos).sum +
          s.foo_ctr = fooBase s + committedFoos r + s1.foo_ctr := by
        have h := progressOne_ledger s r
        rw [hp] at h
        exact h
      have hrec := ih s1 (done ++ [r1]) (rest ++ sp)
      simp only [List.map_append, List.sum_append, List.map_cons,
        List.sum_cons, List.map_nil, List.sum_nil] at hrec hl ⊢
      omega

/-- One Progress Engine pass preserves the foo ledger. -/
theorem update_progress_ledger (s : State) :
    fooLedger (update_robot_actions_progress s) + s.foo_ctr =
      fooLedger s + (update_robot_actions_progress s).foo_ctr := by
  unfold update_robot_actions_progress fooLedger
  rcases hg : progressGo (progressMeasure s.robots + 1) { s with robots := [] }
      [] s.robots with ⟨s1, robots1⟩
  have h := progressGo_ledger (progressMeasure s.robots + 1)
    { s with robots := [] } [] s.robots
  rw [hg] at h
  simp only [fooBase] at h ⊢
  simp only [List.nil_append] at h
  omega

/-- A successful `set_action` installs the requested action either
directly or wrapped in a `changingTask`. -/
theorem set_action_ok_shape (ic : ℤ) (r : Robot) (a : Action) (r' : Robot)
    (h : set_action ic r a = .ok r') :
    r' = a ∨ r' = mkChangingTask a := by
  unfold set_action at h
  split at h
  · exact Except.noConfusion h
  · split at h
    · left; injection h with h2; exact h2.symm
    · right; injection h with h2; exact h2.symm

/-- A `changingTask` wrapper commits exactly what it wraps. -/
theorem committedFoos_mkChangingTask (a : Action) :
    committedFoos (mkChangingTask a) = committedFoos a := rfl

/-- The committed foos of a successfully installed action. -/
theorem set_action_committed (ic : ℤ) (r : Robot) (a : Action) (r' : Robot)
    (h : set_action ic r a = .ok r') : committedFoos r' = committedFoos a := by
  rcases set_action_ok_shape ic r a r' h with h2 | h2 <;> rw [h2]
  rfl

/-- Shape of a successful purchase construction. -/
theorem mkBuyNewRobot_ok (fs : List ℕ) (a : Action)
    (h : mkBuyNewRobot fs = .ok a) :
    a = .buyNewRobot 100 fs ∧ fs.length = foos_required := by
  unfold mkBuyNewRobot at h
  split at h
  · exact Except.noConfusion h
  · refine ⟨?_, by omega⟩
    injection h with h2
    exact h2.symm

/-- Shape of a successful sale construction. -/
theorem mkSellingFoobars_ok (fbs : List Foobar) (a : Action)
    (h : mkSellingFoobars fbs = .ok a) :
    a = .sellingFoobars 100 fbs ∧ fbs.length ≤ max_foobars := by
  unfold mkSellingFoobars at h
  split at h
  · exact Except.noConfusion h
  · refine ⟨?_, by omega⟩
    injection h with h2
    exact h2.symm

/-- A granted purchase moves six foos from the pool into the new action:
the foo ledger is unchanged, and so are the mint counter and the shared
idle clock. -/
theorem go_buy_ledger (s : State) (r : Robot) (s' : State) (r' : Robot)
    (h : go_buy_new_robot s r = .ok (s', r')) :
    fooBase s' + committedFoos r' = fooBase s ∧
    s'.foo_ctr = s.foo_ctr ∧ s'.idleClock = s.idleClock := by
  simp only [go_buy_new_robot] at h
  split at h
  · exact Except.noConfusion h
  · rename_i action hmk
    split at h
    · exact Except.noConfusion h
    · rename_i robot2 hset
      injection h with h2
      obtain ⟨hs, hr⟩ := Prod.mk.injEq .. ▸ h2
      subst hs; subst hr
      obtain ⟨ha, hlen⟩ := mkBuyNewRobot_ok _ _ hmk
      have hc := set_action_committed _ _ _ _ hset
      rw [ha] at hc
      simp only [committedFoos] at hc
      refine ⟨?_, rfl, rfl⟩
      rw [hc]
      simp only [fooBase, List.length_drop, List.length_take] at hlen ⊢
      simp only [foos_required] at hlen ⊢
      omega

/-- A granted sale moves the taken foobars (and the foos inside them) from
the pool into the new action: the foo ledger is unchanged. -/
theorem go_sell_ledger (s : State) (r : Robot) (s' : State) (r' : Robot)
    (h : go_sell_foobars s r = .ok (s', r')) :
    fooBase s' + committedFoos r' = fooBase s ∧
    s'.foo_ctr = s.foo_ctr ∧ s'.idleClock = s.idleClock := by
  simp only [go_sell_foobars] at h
  split at h
  · exact Except.noConfusion h
  · rename_i action hmk
    split at h
    · exact Except.noConfusion h
    · rename_i robot2 hset
      injection h with h2
      obtain ⟨hs, hr⟩ := Prod.mk.injEq .. ▸ h2
      subst hs; subst hr
      obtain ⟨ha, hlen⟩ := mkSellingFoobars_ok _ _ hmk
      have hc := set_action_committed _ _ _ _ hset
      rw [ha] at hc
      simp only [committedFoos] at hc
      refine ⟨?_, rfl, rfl⟩
      rw [hc]
      simp only [fooBase, List.length_drop, List.length_take] at hlen ⊢
      simp only [max_foobars] at hlen ⊢
      omega

/-- A granted assembly moves one foo (and one bar) from the pools into the
new action: the foo ledger is unchanged. -/
theorem go_assemble_ledger (s : State) (r : Robot) (s' : State) (r' : Robot)
    (h : go_assemble_foobars s r = .ok (s', r')) :
    fooBase s' + committedFoos r' = fooBase s ∧
    s'.foo_ctr = s.foo_ctr ∧ s'.idleClock = s.idleClock := by
  unfold go_assemble_foobars at h
  split at h
  · rename_i foo bar hfoo hbar
    simp only [] at h
    split at h
    · exact Except.noConfusion h
    · rename_i robot2 hset
      injection h with h2
      obtain ⟨hs, hr⟩ := Prod.mk.injEq .. ▸ h2
      subst hs; subst hr
      have hc := set_action_committed _ _ _ _ hset
      simp only [mkAssemblingFoobar, committedFoos] at hc
      have hne : s.foos ≠ [] := by
        intro hnil; rw [hnil] at hfoo; exact Option.noConfusion hfoo
      have hpos : 0 < s.foos.length := List.length_pos.mpr hne
      refine ⟨?_, rfl, rfl⟩
      rw [hc]
      simp only [fooBase, List.length_dropLast]
      omega
  · exact Except.noConfusion h

/-- Starting to mine a foo commits nothing and leaves the pools alone. -/
theorem go_mine_foos_ledger (s : State) (r : Robot) (s' : State) (r' : Robot)
    (h : go_mine_foos s r = .ok (s', r')) :
    fooBase s' + committedFoos r' = fooBase s ∧
    s'.foo_ctr = s.foo_ctr ∧ s'.idleClock = s.idleClock := by
  unfold go_mine_foos at h
  split at h
  · exact Except.noConfusion h
  · rename_i robot2 hset
    injection h with h2
    obtain ⟨hs, hr⟩ := Prod.mk.injEq .. ▸ h2
    subst hs; subst hr
    have hc := set_action_committed _ _ _ _ hset
    simp only [mkMiningFoo, committedFoos] at hc
    exact ⟨by rw [hc]; simp [fooBase], rfl, rfl⟩

/-- Starting to mine a bar commits nothing and leaves the pools alone
(only the randomness cursor advances). -/
theorem go_mine_bars_ledger (s : State) (r : Robot) (s' : State) (r' : Robot)
    (h : go_mine_bars s r = .ok (s', r')) :
    fooBase s' + committedFoos r' = fooBase s ∧
    s'.foo_ctr = s.foo_ctr ∧ s'.idleClock = s.idleClock := by
  simp only [go_mine_bars] at h
  split at h
  · exact Except.noConfusion h
  · rename_i robot2 hset
    injection h with h2
    obtain ⟨hs, hr⟩ := Prod.mk.injEq .. ▸ h2
    subst hs; subst hr
    have hc := set_action_committed _ _ _ _ hset
    simp only [mkMiningBar, committedFoos] at hc
    exact ⟨by rw [hc]; simp [fooBase], rfl, rfl⟩

/-- Constructing the projection only touches the money balance. -/
theorem mkFutureState_snd (s : State) (l : List Robot) :
    (mkFutureState s l).2 = { s with money := (mkFutureState s l).1.money } :=
  rfl

/-- Dispatching one idle robot preserves the foo ledger, the mint counter
and the shared idle clock. -/
theorem dispatchOne_ledger (s : State) (done : List Robot) (p : Option Action)
    (todo : List Robot) (s' : State) (r' : Robot)
    (h : dispatchOne s done (.idle p) todo = .ok (s', r')) :
    fooBase s' + committedFoos r' = fooBase s ∧
    s'.foo_ctr = s.foo_ctr ∧ s'.idleClock = s.idleClock := by
  unfold dispatchOne at h
  simp only [] at h
  split at h
  · exact go_buy_ledger _ _ _ _ h
  · split at h
    · exact go_sell_ledger _ _ _ _ h
    · rcases hf : mkFutureState s (done ++ .idle p :: todo) with ⟨fut, s2⟩
      have hs2 : s2 = { s with money := fut.money } := by
        have := mkFutureState_snd s (done ++ .idle p :: todo)
        rw [hf] at this
        exact this
      rw [hf] at h
      simp only [] at h
      have hbase : fooBase s2 = fooBase s := by rw [hs2]; rfl
      have hctr : s2.foo_ctr = s.foo_ctr := by rw [hs2]
      have hic : s2.idleClock = s.idleClock := by rw [hs2]
      split at h
      · have := go_assemble_ledger _ _ _ _ h
        exact ⟨by omega, by omega, by omega⟩
      · split at h
        · have := go_mine_foos_ledger _ _ _ _ h
          exact ⟨by omega, by omega, by omega⟩
        · have := go_mine_bars_ledger _ _ _ _ h
          exact ⟨by omega, by omega, by omega⟩

/-- The dispatch loop preserves the foo ledger, the mint counter and the
shared idle clock. -/
theorem dispatchGo_ledger :
    ∀ (todo : List Robot) (s : State) (done : List Robot) (s' : State)
      (robots' : List Robot),
      dispatchGo s done todo = .ok (s', robots') →
      fooBase s' + (robots'.map committedFoos).sum =
        fooBase s + ((done ++ todo).map committedFoos).sum ∧
      s'.foo_ctr = s.foo_ctr ∧ s'.idleClock = s.idleClock := by
  intro todo
  induction todo with
  | nil =>
    intro s done s' robots' h
    simp only [dispatchGo] at h
    injection h with h2
    obtain ⟨hs, hr⟩ := Prod.mk.injEq .. ▸ h2
    subst hs; subst hr
    simp
  | cons r rest ih =>
    intro s done s' robots' h
    simp only [dispatchGo] at h
    split at h
    · rename_i p
      cases hd : dispatchOne s done (.idle p) rest with
      | error e => rw [hd] at h; exact Except.noConfusion h
      | ok pr =>
        rcases pr with ⟨s2, r2⟩
        rw [hd] at h
        simp only [] at h
        have hil := dispatchOne_ledger _ _ _ _ _ _ hd
        have hrec := ih s2 (done ++ [r2]) s' robots' h
        simp only [List.map_append, List.sum_append, List.map_cons,
          List.sum_cons, List.map_nil, List.sum_nil, committedFoos] at hrec ⊢
        exact ⟨by omega, by omega, by omega⟩
    · have hrec := ih s (done ++ [r]) s' robots' h
      simp only [List.map_append, List.sum_append, List.map_cons,
        List.sum_cons, List.map_nil, List.sum_nil] at hrec ⊢
      exact ⟨by omega, by omega, by omega⟩

/-- One Dispatch Policy pass preserves the foo ledger, the mint counter
and the shared idle clock. -/
theorem dispatch_ledger (s s' : State)
    (h : dispatch_robot_actions s = .ok s') :
    fooLedger s' = fooLedger s ∧ s'.foo_ctr = s.foo_ctr ∧
    s'.idleClock = s.idleClock := by
  unfold dispatch_robot_actions at h
  cases hd : dispatchGo { s with robots := [] } [] s.robots with
  | error e => rw [hd] at h; exact Except.noConfusion h
  | ok pr =>
    rcases pr with ⟨s1, robots1⟩
    rw [hd] at h
    simp only [] at h
    injection h with h2
    subst h2
    have hl := dispatchGo_ledger s.robots { s with robots := [] } [] s1
      robots1 hd
    simp only [List.nil_append] at hl
    obtain ⟨hled, hctr, hic⟩ := hl
    refine ⟨?_, hctr, hic⟩
    simp only [fooLedger, fooBase] at hled ⊢
    omega

/-- Invariant: at every loop boundary every minted foo is accounted for
exactly once — in the pool, committed inside an in-flight action, inside
a pooled foobar, lost to a failed assembly, consumed by a completed
purchase, or inside a foobar already sold. -/
theorem reachable_fooLedger : ∀ (s : State), Reachable s →
    fooLedger s = s.foo_ctr := by
  intro s h
  induction h with
  | init draws => rfl
  | @step s0 s' hreach h30 htick ih =>
    unfold tick at htick
    cases hd : dispatch_robot_actions (update_robot_actions_progress s0) with
    | error e => rw [hd] at htick; exact Except.noConfusion htick
    | ok s2 =>
      rw [hd] at htick
      simp only [] at htick
      have h1 := update_progress_ledger s0
      have h2 := dispatch_ledger _ _ hd
      have hfin : fooLedger s2 = s2.foo_ctr := by
        obtain ⟨h2a, h2b, _⟩ := h2
        omega
      split at htick <;> injection htick with h3 <;> subst h3
      · exact hfin
      · simpa [fooLedger, fooBase] using hfin

/-- `set_action` succeeds whenever the robot's current action has no time
remaining. -/
theorem set_action_ok (ic : ℤ) (r : Robot) (a : Action)
    (h : ¬ remaining_time ic r > 0) : ∃ r', set_action ic r a = .ok r' := by
  unfold set_action
  rw [if_neg h]
  split
  · exact ⟨a, rfl⟩
  · exact ⟨mkChangingTask a, rfl⟩

/-- The idle robot's remaining time is the shared idle clock, which the
dispatch guard keeps non-positive. -/
theorem idle_not_busy (ic : ℤ) (p : Option Action) (hic : ic ≤ 0) :
    ¬ remaining_time ic (Action.idle p) > 0 := by
  simp only [remaining_time]
  omega

/-- Tier 1 never raises: with strictly more than six pooled foos the
purchase always takes exactly six, and the idle robot accepts it. -/
theorem go_buy_ok (s : State) (p : Option Action) (hic : s.idleClock ≤ 0)
    (hlen : foos_required ≤ s.foos.length) :
    ∃ out, go_buy_new_robot s (.idle p) = .ok out := by
  obtain ⟨r', hr'⟩ := set_action_ok s.idleClock (.idle p)
    (.buyNewRobot 100 (s.foos.take foos_required)) (idle_not_busy _ _ hic)
  have hcond : ¬((s.foos.take foos_required).length ≠ foos_required) := by
    simp only [List.length_take]
    omega
  cases hx : go_buy_new_robot s (.idle p) with
  | error e =>
    simp only [go_buy_new_robot, mkBuyNewRobot, if_neg hcond, hr'] at hx
    exact Except.noConfusion hx
  | ok out => exact ⟨out, rfl⟩

/-- Tier 2 never raises: the sale takes at most five foobars, and the
idle robot accepts it. -/
theorem go_sell_ok (s : State) (p : Option Action) (hic : s.idleClock ≤ 0) :
    ∃ out, go_sell_foobars s (.idle p) = .ok out := by
  obtain ⟨r', hr'⟩ := set_action_ok s.idleClock (.idle p)
    (.sellingFoobars 100 (s.foobars.take max_foobars)) (idle_not_busy _ _ hic)
  have hcond : ¬((s.foobars.take max_foobars).length > max_foobars) := by
    simp only [List.length_take]
    omega
  cases hx : go_sell_foobars s (.idle p) with
  | error e =>
    simp only [go_sell_foobars, mkSellingFoobars, if_neg hcond, hr'] at hx
    exact Except.noConfusion hx
  | ok out => exact ⟨out, rfl⟩

/-- Tier 3 never raises when both pools checked by its guard are
non-empty. -/
theorem go_assemble_ok (s : State) (p : Option Action)
    (hic : s.idleClock ≤ 0) (hf : s.foos ≠ []) (hb : s.bars ≠ []) :
    ∃ out, go_assemble_foobars s (.idle p) = .ok out := by
  obtain ⟨foo, hfoo⟩ :=
    Option.isSome_iff_exists.mp (List.getLast?_isSome.mpr hf)
  obtain ⟨bar, hbar⟩ :=
    Option.isSome_iff_exists.mp (List.getLast?_isSome.mpr hb)
  obtain ⟨r', hr'⟩ := set_action_ok s.idleClock (.idle p)
    (mkAssemblingFoobar foo bar) (idle_not_busy _ _ hic)
  cases hx : go_assemble_foobars s (.idle p) with
  | error e =>
    simp only [go_assemble_foobars, hfoo, hbar, hr'] at hx
    exact Except.noConfusion hx
  | ok out => exact ⟨out, rfl⟩

/-- Tier 4 (foo) never raises. -/
theorem go_mine_foos_ok (s : State) (p : Option Action)
    (hic : s.idleClock ≤ 0) : ∃ out, go_mine_foos s (.idle p) = .ok out := by
  obtain ⟨r', hr'⟩ := set_action_ok s.idleClock (.idle p) mkMiningFoo
    (idle_not_busy _ _ hic)
  cases hx : go_mine_foos s (.idle p) with
  | error e =>
    simp only [go_mine_foos, hr'] at hx
    exact Except.noConfusion hx
  | ok out => exact ⟨out, rfl⟩

/-- Tier 4 (bar) never raises. -/
theorem go_mine_bars_ok (s : State) (p : Option Action)
    (hic : s.idleClock ≤ 0) : ∃ out, go_mine_bars s (.idle p) = .ok out := by
  obtain ⟨r', hr'⟩ := set_action_ok s.idleClock (.idle p)
    (mkMiningBar (s.draws s.drawIdx)) (idle_not_busy _ _ hic)
  cases hx : go_mine_bars s (.idle p) with
  | error e =>
    simp only [go_mine_bars, hr'] at hx
    exact Except.noConfusion hx
  | ok out => exact ⟨out, rfl⟩

/-- Dispatching an idle robot never raises while the shared idle clock is
non-positive: every tier's resource pops are guarded by the checks just
made, and `set_action` sees an idle robot. -/
theorem dispatchOne_ok (s : State) (done : List Robot) (p : Option Action)
    (todo : List Robot) (hic : s.idleClock ≤ 0) :
    ∃ out, dispatchOne s done (.idle p) todo = .ok out := by
  unfold dispatchOne
  simp only []
  split
  · rename_i hc
    have h1 := ((Bool.and_eq_true _ _).mp hc).1
    unfold can_afford_new_robot at h1
    have h2 := ((Bool.and_eq_true _ _).mp h1).2
    have hlen : foos_required < s.foos.length := of_decide_eq_true h2
    exact go_buy_ok s p hic (le_of_lt hlen)
  · split
    · exact go_sell_ok s p hic
    · rcases hf : mkFutureState s (done ++ .idle p :: todo) with ⟨fut, s2⟩
      have hs2 : s2 = { s with money := fut.money } := by
        have := mkFutureState_snd s (done ++ .idle p :: todo)
        rw [hf] at this
        exact this
      have hic2 : s2.idleClock ≤ 0 := by rw [hs2]; exact hic
      split
      · rename_i hc
        have hcc := (Bool.and_eq_true _ _).mp hc
        have hfoos : foos_required < s2.foos.length :=
          of_decide_eq_true ((Bool.and_eq_true _ _).mp hcc.1).1
        have hbars : 0 < s2.bars.length :=
          of_decide_eq_true ((Bool.and_eq_true _ _).mp hcc.1).2
        refine go_assemble_ok s2 p hic2 ?_ ?_
        · intro hnil; rw [hnil] at hfoos; simp at hfoos
        · intro hnil; rw [hnil] at hbars; simp at hbars
      · split
        · exact go_mine_foos_ok s2 p hic2
        · exact go_mine_bars_ok s2 p hic2

/-- The dispatch loop never raises while the shared idle clock is
non-positive. -/
theorem dispatchGo_ok : ∀ (todo : List Robot) (s : State) (done : List Robot),
    s.idleClock ≤ 0 → ∃ out, dispatchGo s done todo = .ok out := by
  intro todo
  induction todo with
  | nil => exact fun s done _ => ⟨(s, done), rfl⟩
  | cons r rest ih =>
    intro s done hic
    cases r with
    | idle p =>
      obtain ⟨⟨s2, r2⟩, hd⟩ := dispatchOne_ok s done p rest hic
      have hic2 : s2.idleClock = s.idleClock :=
        (dispatchOne_ledger _ _ _ _ _ _ hd).2.2
      obtain ⟨out, hout⟩ := ih s2 (done ++ [r2]) (by omega)
      refine ⟨out, ?_⟩
      simp only [dispatchGo, hd]
      exact hout
    | changingTask rem next =>
      obtain ⟨out, hout⟩ := ih s (done ++ [.changingTask rem next]) hic
      exact ⟨out, hout⟩
    | miningFoo rem =>
      obtain ⟨out, hout⟩ := ih s (done ++ [.miningFoo rem]) hic
      exact ⟨out, hout⟩
    | miningBar rem =>
      obtain ⟨out, hout⟩ := ih s (done ++ [.miningBar rem]) hic
      exact ⟨out, hout⟩
    | assemblingFoobar rem f b =>
      obtain ⟨out, hout⟩ := ih s (done ++ [.assemblingFoobar rem f b]) hic
      exact ⟨out, hout⟩
    | sellingFoobars rem fbs =>
      obtain ⟨out, hout⟩ := ih s (done ++ [.sellingFoobars rem fbs]) hic
      exact ⟨out, hout⟩
    | buyNewRobot rem fs =>
      obtain ⟨out, hout⟩ := ih s (done ++ [.buyNewRobot rem fs]) hic
      exact ⟨out, hout⟩

/-- The Dispatch Policy never raises while the shared idle clock is
non-positive. -/
theorem dispatch_robot_actions_ok (s : State) (hic : s.idleClock ≤ 0) :
    ∃ s', dispatch_robot_actions s = .ok s' := by
  obtain ⟨⟨s1, robots1⟩, hd⟩ := dispatchGo_ok s.robots { s with robots := [] }
    [] hic
  cases hx : dispatch_robot_actions s with
  | error e =>
    simp only [dispatch_robot_actions, hd] at hx
    exact Except.noConfusion hx
  | ok out => exact ⟨out, rfl⟩

/-- Error characterization of the sale constructor. -/
theorem mkSelling_error_iff (fbs : List Foobar) :
    (∃ e, mkSellingFoobars fbs = .error e) ↔ fbs.length > max_foobars := by
  unfold mkSellingFoobars
  split
  · rename_i hgt
    exact ⟨fun _ => hgt, fun _ => ⟨_, rfl⟩⟩
  · rename_i hle
    constructor
    · rintro ⟨e, he⟩
      exact Except.noConfusion he
    · intro hgt
      exact absurd hgt hle

/-- Error characterization of the purchase constructor. -/
theorem mkBuy_error_iff (fs : List ℕ) :
    (∃ e, mkBuyNewRobot fs = .error e) ↔ fs.length ≠ foos_required := by
  unfold mkBuyNewRobot
  split
  · rename_i hne
    exact ⟨fun _ => hne, fun _ => ⟨_, rfl⟩⟩
  · rename_i heq
    constructor
    · rintro ⟨e, he⟩
      exact Except.noConfusion he
    · intro hne
      exact absurd hne heq

/-- Error characterization of `Robot.set_action`. -/
theorem set_action_error_iff (ic : ℤ) (r : Robot) (a : Action) :
    (∃ e, set_action ic r a = .error e) ↔ remaining_time ic r > 0 := by
  unfold set_action
  split
  · rename_i hgt
    exact ⟨fun _ => hgt, fun _ => ⟨_, rfl⟩⟩
  · rename_i hng
    constructor
    · rintro ⟨e, he⟩
      split at he <;> exact Except.noConfusion he
    · intro hgt
      exact absurd hgt hng

/-- The recently-done check reads exactly the record of the last completed
action, which is visible only while the robot is idle. -/
theorem recently_iff_visible (r : Robot) (k : ActionKind) :
    robot_did_this_action_recently r k = true ↔
      lastCompletedVisible r = some k := by
  cases r with
  | idle p =>
    cases p with
    | none => simp [robot_did_this_action_recently, lastCompletedVisible]
    | some prev => simp [robot_did_this_action_recently, lastCompletedVisible]
  | changingTask rem next =>
    simp [robot_did_this_action_recently, lastCompletedVisible]
  | miningFoo rem =>
    simp [robot_did_this_action_recently, lastCompletedVisible]
  | miningBar rem =>
    simp [robot_did_this_action_recently, lastCompletedVisible]
  | assemblingFoobar rem f b =>
    simp [robot_did_this_action_recently, lastCompletedVisible]
  | sellingFoobars rem fbs =>
    simp [robot_did_this_action_recently, lastCompletedVisible]
  | buyNewRobot rem fs =>
    simp [robot_did_this_action_recently, lastCompletedVisible]

/-- Claim C1, counterexample: starting from currency 4 and seven pooled
foos, dispatching the single idle agent to buy a robot leaves the balance
at 1 already at dispatch time — not at 4 as the claim asserts it stays
until resolution. -/
theorem C1_counterexample :
    c1State.money = 4 ∧
    (dispatch_robot_actions c1State).map State.money = .ok 1 ∧
    (1 : ℤ) ≠ 4 :=
  ⟨rfl, rfl, by decide⟩

/-- Claim C1, amended: at dispatch time a granted purchase removes the six
committed foos from the pool AND debits the fixed cost of 3; the later
resolution of the purchase changes neither the balance nor the pool. -/
theorem C1_amended :
    (∀ (s : State) (r : Robot) (s' : State) (r' : Robot),
      go_buy_new_robot s r = .ok (s', r') →
      s'.money = s.money - cost ∧ s'.foos = s.foos.drop foos_required) ∧
    (∀ (s : State) (fs : List ℕ),
      (buy_new_robot s fs).money = s.money ∧
      (buy_new_robot s fs).foos = s.foos) := by
  constructor
  · intro s r s' r' h
    simp only [go_buy_new_robot] at h
    split at h
    · exact Except.noConfusion h
    · split at h
      · exact Except.noConfusion h
      · injection h with h2
        obtain ⟨hs, _⟩ := Prod.mk.injEq .. ▸ h2
        subst hs
        exact ⟨rfl, rfl⟩
  · exact fun s fs => ⟨rfl, rfl⟩

/-- Witness for the amended claim C1 at the concrete scenario state. -/
theorem C1_witness :
    ({ c1State with money := 1, foos := [7] } : State).money =
      c1State.money - cost ∧
    ({ c1State with money := 1, foos := [7] } : State).foos =
      c1State.foos.drop foos_required :=
  C1_amended.1 c1State (Action.idle none) _ _ rfl

/-- Claim C2, counterexample: robot 1, idle after completing a MiningFoo,
is re-dispatched to MiningFoo (no task change needed) and is now busy;
its last completed action is MiningFoo, yet the coordination check GRANTS
MiningFoo to robot 0, where the claim demands denial because of the busy
peer. -/
theorem C2_counterexample :
    set_action 0 (Action.idle (some (Action.miningFoo 0)))
        (Action.miningFoo 10) = .ok (Action.miningFoo 10) ∧
    should_this_robot_do_that_action [Action.miningFoo 10]
        (Action.idle none) ActionKind.miningFoo = true ∧
    claimCoordination none [some ActionKind.miningFoo]
        ActionKind.miningFoo = false :=
  ⟨rfl, rfl, by decide⟩

/-- Claim C2, amended: the coordination check grants the action iff the
agent's own recorded last completed action is of that kind, or no other
CURRENTLY IDLE agent's recorded previous action is of that kind; busy
peers never cause denial, because a busy robot stores no last-completed
record the check could see. -/
theorem C2_amended :
    ∀ (others : List Robot) (robot : Robot) (k : ActionKind),
      should_this_robot_do_that_action others robot k = true ↔
        (lastCompletedVisible robot = some k ∨
          ∀ o ∈ others, lastCompletedVisible o ≠ some k) := by
  intro others robot k
  unfold should_this_robot_do_that_action
  split
  · rename_i hself
    simp only [true_iff]
    exact Or.inl ((recently_iff_visible robot k).mp hself)
  · rename_i hself
    split
    · rename_i hany
      simp only [Bool.false_eq_true, false_iff]
      intro hor
      obtain ⟨o, ho, hro⟩ := List.any_eq_true.mp hany
      rcases hor with hl | hall
      · exact hself ((recently_iff_visible robot k).mpr hl)
      · exact hall o ho ((recently_iff_visible o k).mp hro)
    · rename_i hany
      simp only [true_iff]
      right
      intro o ho hvo
      exact hany (List.any_eq_true.mpr
        ⟨o, ho, (recently_iff_visible o k).mpr hvo⟩)

/-- Witness for the amended claim C2 at a concrete fleet. -/
theorem C2_witness :
    should_this_robot_do_that_action [Action.miningFoo 10]
        (Action.idle none) ActionKind.miningFoo = true ↔
      (lastCompletedVisible (Action.idle none) = some ActionKind.miningFoo ∨
        ∀ o ∈ [Action.miningFoo 10],
          lastCompletedVisible o ≠ some ActionKind.miningFoo) :=
  C2_amended [Action.miningFoo 10] (Action.idle none) ActionKind.miningFoo

/-- Claim C3: constructing the projection is NOT read-only — with an agent
mid-sale, the Python `FutureState.__init__` aliases the world's `Money`
object and credits the in-flight profit to the world balance: from money
0 the construction leaves money 1, and a dispatch pass that consults the
projection does the same. -/
theorem C3_projection_mutates :
    c3State.money = 0 ∧
    (mkFutureState c3State c3State.robots).2.money = 1 ∧
    (dispatch_robot_actions c3State).map State.money = .ok 1 :=
  ⟨rfl, rfl, rfl⟩

/-- Claim C4: the shared class-level `remaining_time` of idle actions is
driven NEGATIVE by the Progress Engine — after one pass over the fresh
two-robot world both robots are still idle but the shared counter reads
−2, violating the `remaining_ticks ≥ 0` invariant the claim states. -/
theorem C4_idle_negative :
    (initState zeroDraws).idleClock = 0 ∧
    (update_robot_actions_progress (initState zeroDraws)).robots =
      [Action.idle none, Action.idle none] ∧
    (update_robot_actions_progress (initState zeroDraws)).idleClock = -2 ∧
    remaining_time
        (update_robot_actions_progress (initState zeroDraws)).idleClock
        (Action.idle none) < 0 :=
  ⟨rfl, rfl, rfl, by decide⟩

/-- Claim C5, counterexample: with pool [1..7] the dispatched purchase
takes the six OLDEST foos [1..6] (the pool keeps [7]), not the six most
recently mined ones, which would be [2..7]. -/
theorem C5_counterexample :
    (go_buy_new_robot c1State (Action.idle none)).map
        (fun p => (p.1.foos, p.2)) =
      .ok ([7], Action.changingTask 50
        (Action.buyNewRobot 100 [1, 2, 3, 4, 5, 6])) ∧
    [1, 2, 3, 4, 5, 6] ≠ List.drop 1 [1, 2, 3, 4, 5, 6, 7] :=
  ⟨rfl, by decide⟩

/-- Claim C5, amended: tier 1 and tier 2 commit from the FRONT of the
pool (the oldest entries, FIFO): the purchase takes the first six foos
and the sale the first five foobars, the pools keeping the rest. -/
theorem C5_amended :
    (∀ (s : State) (r : Robot) (s' : State) (r' : Robot),
      go_buy_new_robot s r = .ok (s', r') →
      (r' = Action.buyNewRobot 100 (s.foos.take foos_required) ∨
        r' = mkChangingTask
          (Action.buyNewRobot 100 (s.foos.take foos_required))) ∧
      s'.foos = s.foos.drop foos_required) ∧
    (∀ (s : State) (r : Robot) (s' : State) (r' : Robot),
      go_sell_foobars s r = .ok (s', r') →
      (r' = Action.sellingFoobars 100 (s.foobars.take max_foobars) ∨
        r' = mkChangingTask
          (Action.sellingFoobars 100 (s.foobars.take max_foobars))) ∧
      s'.foobars = s.foobars.drop max_foobars) := by
  constructor
  · intro s r s' r' h
    simp only [go_buy_new_robot] at h
    split at h
    · exact Except.noConfusion h
    · rename_i action hmk
      split at h
      · exact Except.noConfusion h
      · rename_i robot2 hset
        injection h with h2
        obtain ⟨hs, hr⟩ := Prod.mk.injEq .. ▸ h2
        subst hs; subst hr
        obtain ⟨ha, _⟩ := mkBuyNewRobot_ok _ _ hmk
        subst ha
        exact ⟨set_action_ok_shape _ _ _ _ hset, rfl⟩
  · intro s r s' r' h
    simp only [go_sell_foobars] at h
    split at h
    · exact Except.noConfusion h
    · rename_i action hmk
      split at h
      · exact Except.noConfusion h
      · rename_i robot2 hset
        injection h with h2
        obtain ⟨hs, hr⟩ := Prod.mk.injEq .. ▸ h2
        subst hs; subst hr
        obtain ⟨ha, _⟩ := mkSellingFoobars_ok _ _ hmk
        subst ha
        exact ⟨set_action_ok_shape _ _ _ _ hset, rfl⟩

/-- Witness for the amended claim C5 at the concrete scenario state. -/
theorem C5_witness :
    (Action.changingTask 50 (Action.buyNewRobot 100 [1, 2, 3, 4, 5, 6]) =
        Action.buyNewRobot 100 (c1State.foos.take foos_required) ∨
      Action.changingTask 50 (Action.buyNewRobot 100 [1, 2, 3, 4, 5, 6]) =
        mkChangingTask
          (Action.buyNewRobot 100 (c1State.foos.take foos_required))) ∧
    ({ c1State with money := 1, foos := [7] } : State).foos =
      c1State.foos.drop foos_required :=
  C5_amended.1 c1State (Action.idle none) _ _ rfl

/-- Claim C6, counterexample: in the reachable state of tick 641 of the
zero-draw run a sale has completed; the claim's ledger (which omits foos
inside foobars already sold) totals 7 while 12 foos were minted. -/
theorem C6_counterexample :
    Reachable st641 ∧ specFooLedger st641 ≠ st641.foo_ctr :=
  ⟨st641_reachable, by decide⟩

/-- Claim C6, amended: for every reachable state, the foos in the pool,
plus the foos committed inside in-flight actions (including inside
foobars held by a pending sale), plus the foos inside pooled foobars,
plus the foos lost to failed assembly, consumed by completed purchases,
AND inside foobars already sold, equals the total minted. -/
theorem C6_conservation (s : State) (h : Reachable s) :
    s.foos.length + (s.robots.map committedFoos).sum + s.foobars.length +
      s.lostFoos + s.boughtFoos + s.soldFoos = s.foo_ctr := by
  have hl := reachable_fooLedger s h
  simp only [fooLedger, fooBase] at hl
  omega

/-- Witness for the amended claim C6 at the initial state. -/
theorem C6_witness :
    Reachable (initState zeroDraws) ∧
    (initState zeroDraws).foos.length +
        ((initState zeroDraws).robots.map committedFoos).sum +
        (initState zeroDraws).foobars.length +
        (initState zeroDraws).lostFoos + (initState zeroDraws).boughtFoos +
        (initState zeroDraws).soldFoos = (initState zeroDraws).foo_ctr :=
  ⟨Reachable.init zeroDraws,
    C6_conservation (initState zeroDraws) (Reachable.init zeroDraws)⟩

set_option maxRecDepth 1000000 in
/-- Claim C7, counterexample: after 10 ticks of the fresh two-robot world
the pool holds 0 foos (not 2) and both robots sit in a `changingTask`
(not idle): a fresh robot's first dispatch always pays the 50-tick task
switch, which the claim's scenario overlooks. -/
theorem C7_counterexample :
    (iterTick 10 (initState zeroDraws)).map
        (fun s => (s.foos.length, s.robots.map Action.kind)) =
      .ok (0, [ActionKind.changingTask, ActionKind.changingTask]) ∧
    (0 : ℕ) ≠ 2 ∧ ActionKind.changingTask ≠ ActionKind.idle :=
  ⟨rfl, by decide, by decide⟩

set_option maxRecDepth 1000000 in
/-- Claim C7, amended: both fresh agents are dispatched to mine foo but
wrapped in a 50-tick `changingTask`; after 10 ticks the pool is empty and
both wrappers have 41 ticks left; the pool first holds exactly 2 foos
mid-tick 61, right after the progress phase, with both agents idle with
previous action MiningFoo — and by the end of tick 61 dispatch has set
both to mine foo again. -/
theorem C7_amended :
    ((iterTick 10 (initState zeroDraws)).map fun s => (s.foos, s.robots)) =
      .ok ([], [Action.changingTask 41 (Action.miningFoo 10),
        Action.changingTask 41 (Action.miningFoo 10)]) ∧
    ((iterTick 60 (initState zeroDraws)).map fun s =>
        ((update_robot_actions_progress s).foos,
          (update_robot_actions_progress s).robots)) =
      .ok ([1, 2], [Action.idle (some (Action.miningFoo 0)),
        Action.idle (some (Action.miningFoo 0))]) ∧
    ((iterTick 61 (initState zeroDraws)).map fun s => (s.foos, s.robots)) =
      .ok ([1, 2], [Action.miningFoo 10, Action.miningFoo 10]) :=
  ⟨rfl, rfl, rfl⟩

/-- Claim C8: a completing `changingTask` hands the robot exactly the
wrapped action with its remaining time untouched; a zero-duration wrapped
action (the source comments name the purchase) resolves in the same tick,
with its effect applied and the robot left idle remembering it. -/
theorem C8_changing_resolution :
    ∀ (s : State) (rem : ℤ), rem ≤ 1 →
      (∀ next : Action, 0 < remaining_time s.idleClock next →
        progressOne s (Action.changingTask rem next) = (s, next, [])) ∧
      (∀ fs : List ℕ,
        progressOne s (Action.changingTask rem (Action.buyNewRobot 0 fs)) =
          (buy_new_robot s fs,
            Action.idle (some (Action.buyNewRobot 0 fs)),
            [Action.idle none])) := by
  intro s rem hrem
  constructor
  · intro next hnext
    simp only [progressOne, decrement_remaining]
    rw [if_neg (show ¬ remaining_time s.idleClock
        (Action.changingTask (rem - 1) next) > 0 by
      simp only [remaining_time]; omega)]
    rw [if_pos hnext]
  · intro fs
    simp only [progressOne, decrement_remaining]
    rw [if_neg (show ¬ remaining_time s.idleClock
        (Action.changingTask (rem - 1) (Action.buyNewRobot 0 fs)) > 0 by
      simp only [remaining_time]; omega)]
    rw [if_neg (show ¬ remaining_time s.idleClock
        (Action.buyNewRobot 0 fs) > 0 by
      simp only [remaining_time]; omega)]
    simp only [resolveCompleted]

/-- Witness for claim C8 at concrete inputs. -/
theorem C8_witness :
    progressOne (initState zeroDraws)
        (Action.changingTask 1 (Action.miningFoo 10)) =
      (initState zeroDraws, Action.miningFoo 10, []) ∧
    progressOne (initState zeroDraws)
        (Action.changingTask 1 (Action.buyNewRobot 0 [1, 2, 3, 4, 5, 6])) =
      (buy_new_robot (initState zeroDraws) [1, 2, 3, 4, 5, 6],
        Action.idle (some (Action.buyNewRobot 0 [1, 2, 3, 4, 5, 6])),
        [Action.idle none]) :=
  ⟨(C8_changing_resolution (initState zeroDraws) 1 (by decide)).1
      (Action.miningFoo 10) (by decide),
    (C8_changing_resolution (initState zeroDraws) 1 (by decide)).2
      [1, 2, 3, 4, 5, 6]⟩

/-- Claim C9, counterexample to the "no other core operation can fail"
clause: assigning a new action to a busy robot raises. -/
theorem C9_counterexample :
    set_action 0 (Action.miningFoo 3) mkMiningFoo =
      .error "This robot is busy and cannot do this action." := rfl

/-- Claim C9, amended: action construction fails in exactly the two
stated cases — selling more than 5 foobars, buying with other than
exactly 6 foos — and the only other fallible core operation is assigning
an action to a busy agent. -/
theorem C9_amended :
    (∀ fbs : List Foobar,
      (∃ e, mkSellingFoobars fbs = .error e) ↔
        fbs.length > max_foobars) ∧
    (∀ fs : List ℕ,
      (∃ e, mkBuyNewRobot fs = .error e) ↔ fs.length ≠ foos_required) ∧
    (∀ (ic : ℤ) (r : Robot) (a : Action),
      (∃ e, set_action ic r a = .error e) ↔ remaining_time ic r > 0) :=
  ⟨mkSelling_error_iff, mkBuy_error_iff, set_action_error_iff⟩

/-- Witness for the amended claim C9: 5 foobars sell, 6 do not; 6 foos
buy, 5 or 7 do not. -/
theorem C9_witness :
    (¬ ∃ e, mkSellingFoobars [(1, 1), (2, 2), (3, 3), (4, 4), (5, 5)] =
      .error e) ∧
    (∃ e, mkSellingFoobars [(1, 1), (2, 2), (3, 3), (4, 4), (5, 5), (6, 6)] =
      .error e) ∧
    (¬ ∃ e, mkBuyNewRobot [1, 2, 3, 4, 5, 6] = .error e) ∧
    (∃ e, mkBuyNewRobot [1, 2, 3, 4, 5] = .error e) ∧
    (∃ e, mkBuyNewRobot [1, 2, 3, 4, 5, 6, 7] = .error e) :=
  ⟨fun h => absurd ((C9_amended.1 _).mp h) (by decide),
    (C9_amended.1 _).mpr (by decide),
    fun h => absurd ((C9_amended.2.1 _).mp h) (by decide),
    (C9_amended.2.1 _).mpr (by decide),
    (C9_amended.2.1 _).mpr (by decide)⟩

/-- Claim C10: assigning a new action raises exactly when the agent's
current action still has time remaining, and under the Dispatch Policy
(which assigns only to idle agents, whose remaining time is the
non-positive shared idle clock) that branch is unreachable: dispatch
never raises. -/
theorem C10_busy_guard :
    (∀ (ic : ℤ) (r : Robot) (a : Action),
      (∃ e, set_action ic r a = .error e) ↔ remaining_time ic r > 0) ∧
    (∀ s : State, s.idleClock ≤ 0 →
      ∃ s', dispatch_robot_actions s = .ok s') :=
  ⟨set_action_error_iff, dispatch_robot_actions_ok⟩

/-- Witness for claim C10 at concrete inputs. -/
theorem C10_witness :
    (∃ e, set_action 0 (Action.miningFoo 3) (Action.miningFoo 10) =
      .error e) ∧
    (∃ s', dispatch_robot_actions (initState zeroDraws) = .ok s') :=
  ⟨(C10_busy_guard.1 0 (Action.miningFoo 3) (Action.miningFoo 10)).mpr
      (by decide),
    C10_busy_guard.2 (initState zeroDraws) (by decide)⟩

end FooSim
